import Mathlib

/-!
Shallow embedding of the `deep_search_app` knowledge-graph engine
(`core/knowledge_graph.py`, `core/path_analyzer.py`,
`core/relationship_analyzer.py`) and verification of its specification.

Python floats are modelled as rationals (`ℚ`), except where the code uses
`math.log`, which is modelled with `Real.log`.  Python dicts holding
metadata are modelled as association lists; Python dict truthiness
(`if metadata:`) becomes an emptiness test.
-/

namespace DeepSearch

/-- Metadata bag: model of a Python `Dict[str, Any]` used as an opaque
key/value mapping. -/
abbrev Meta := List (String × String)

/-- One directed edge of the NetworkX `DiGraph`, with the three attributes
`add_relationship` always sets. -/
structure Edge where
  source : String
  target : String
  weight : ℚ
  relationship_type : String
  metadata : Meta
deriving DecidableEq, Repr

/-- State of a `KnowledgeGraph` object: the `DiGraph` nodes (insertion
order), its edges (insertion order, one per ordered pair once well-formed)
and the `entity_data` dict. -/
structure KnowledgeGraph where
  nodes : List String
  edges : List Edge
  entityData : List (String × Meta)
deriving DecidableEq, Repr

/-- Model of `KnowledgeGraph.__init__`: empty directed graph, empty metadata dict. -/
def emptyKG : KnowledgeGraph := ⟨[], [], []⟩

/-- Dict read: `d.get(e)` on an insertion-ordered dict. -/
def lookupMeta : List (String × Meta) → String → Option Meta
  | [], _ => none
  | (k, v) :: rest, e => if k = e then some v else lookupMeta rest e

/-- Dict write: `d[e] = m` (replaces in place, else appends). -/
def setMeta : List (String × Meta) → String → Meta → List (String × Meta)
  | [], e, m => [(e, m)]
  | (k, v) :: rest, e, m =>
    if k = e then (e, m) :: rest else (k, v) :: setMeta rest e m

/-- Model of `KnowledgeGraph.add_entity`: `self.graph.add_node(entity)` (no-op on an
existing node) then `if metadata: self.entity_data[entity] = metadata`
(Python truthiness: `None` and the empty dict both skip the write). -/
def addEntity (G : KnowledgeGraph) (entity : String) (metadata : Option Meta) :
    KnowledgeGraph where
  nodes := if entity ∈ G.nodes then G.nodes else G.nodes ++ [entity]
  edges := G.edges
  entityData :=
    match metadata with
    | some m => if m = [] then G.entityData else setMeta G.entityData entity m
    | none => G.entityData

/-- Model of `DiGraph.add_edge`: replaces the attributes of an existing edge for the
same ordered pair, otherwise appends a new edge. -/
def setEdge : List Edge → Edge → List Edge
  | [], e => [e]
  | ed :: rest, e =>
    if ed.source = e.source ∧ ed.target = e.target then e :: rest
    else ed :: setEdge rest e

/-- Model of `KnowledgeGraph.add_relationship`: clamps the weight to `[0, 1]`,
auto-creates missing endpoints, then `add_edge` with
`metadata or {}` as the stored metadata. -/
def addRelationship (G : KnowledgeGraph) (source target : String) (weight : ℚ)
    (relationshipType : String) (metadata : Option Meta) : KnowledgeGraph :=
  let w := max 0 (min 1 weight)
  let G1 := if source ∈ G.nodes then G else addEntity G source none
  let G2 := if target ∈ G1.nodes then G1 else addEntity G1 target none
  { nodes := G2.nodes
    edges := setEdge G2.edges ⟨source, target, w, relationshipType, metadata.getD []⟩
    entityData := G2.entityData }

/-- Model of `KnowledgeGraph.get_entities`. -/
def getEntities (G : KnowledgeGraph) : List String := G.nodes

/-- Model of `KnowledgeGraph.get_relationships`: every edge with its attributes. -/
def getRelationships (G : KnowledgeGraph) : List Edge := G.edges

/-- Model of `KnowledgeGraph.get_entity_relationships`: `(outgoing, incoming)` lists
of `(other, weight, relationship_type)`; empty for an absent entity. -/
def getEntityRelationships (G : KnowledgeGraph) (entity : String) :
    List (String × ℚ × String) × List (String × ℚ × String) :=
  if entity ∈ G.nodes then
    (G.edges.filterMap fun ed =>
      if ed.source = entity then some (ed.target, ed.weight, ed.relationship_type)
      else none,
     G.edges.filterMap fun ed =>
      if ed.target = entity then some (ed.source, ed.weight, ed.relationship_type)
      else none)
  else ([], [])

/-- Neighbors of `u` in `self.graph.to_undirected()`: endpoints of edges
touching `u` in either direction (`u` itself appears on a self-loop). -/
def undirectedNeighbors (G : KnowledgeGraph) (u : String) : Finset String :=
  ((G.edges.filterMap fun ed => if ed.source = u then some ed.target else none) ++
   (G.edges.filterMap fun ed => if ed.target = u then some ed.source else none)).toFinset

/-- The BFS loop of `get_neighbors` for higher orders: returns
`(current_level, visited)` after `k` iterations. -/
def bfsLevels (G : KnowledgeGraph) (entity : String) :
    ℕ → Finset String × Finset String
  | 0 => ({entity}, {entity})
  | k + 1 =>
    let p := bfsLevels G entity k
    let next := (p.1.biUnion fun v => undirectedNeighbors G v) \ p.2
    (next, p.2 ∪ next)

/-- Model of `KnowledgeGraph.get_neighbors`: direct undirected neighbors at order 1,
BFS levels otherwise; empty set for an absent entity. -/
def getNeighbors (G : KnowledgeGraph) (entity : String) (order : ℕ) :
    Finset String :=
  if entity ∈ G.nodes then
    if order = 1 then undirectedNeighbors G entity
    else (bfsLevels G entity order).1
  else ∅

/-- Model of `self.graph.has_edge(u, v)`. -/
def hasEdge (G : KnowledgeGraph) (u v : String) : Bool :=
  G.edges.any fun ed => ed.source = u ∧ ed.target = v

/-- Model of `self.graph[u][v].get('weight', 0.5)`. -/
def edgeWeight (G : KnowledgeGraph) (u v : String) : ℚ :=
  match G.edges.find? fun ed => decide (ed.source = u ∧ ed.target = v) with
  | some ed => ed.weight
  | none => 1 / 2

/-- Model of `KnowledgeGraph.get_path_weights`: weights of the consecutive pairs
whose edge exists; a missing edge contributes nothing. -/
def getPathWeights (G : KnowledgeGraph) (path : List String) : List ℚ :=
  (path.zip path.tail).filterMap fun p =>
    if hasEdge G p.1 p.2 then some (edgeWeight G p.1 p.2) else none

/-- Model of `KnowledgeGraph.get_average_path_weight`. -/
def getAveragePathWeight (G : KnowledgeGraph) (path : List String) : ℚ :=
  let ws := getPathWeights G path
  if ws = [] then 0 else ws.sum / ws.length

/-- Out-neighbors of `u` in edge-insertion order (`DiGraph` successors). -/
def successors (G : KnowledgeGraph) (u : String) : List String :=
  G.edges.filterMap fun ed => if ed.source = u then some ed.target else none

/-- The DFS of `networkx.all_simple_paths`: all simple paths from `u` to
`t` with at most `fuel` edges, avoiding `visited` (which contains the
nodes already on the path, `u` included). -/
def simplePathsAux (G : KnowledgeGraph) (t : String) :
    ℕ → String → List String → List (List String)
  | 0, u, _ => if u = t then [[u]] else []
  | k + 1, u, visited =>
    if u = t then [[u]]
    else
      ((successors G u).filter fun v => decide (v ∉ visited)).flatMap fun v =>
        (simplePathsAux G t k v (v :: visited)).map (u :: ·)

/-- Model of `KnowledgeGraph.find_all_paths`: absent endpoints give `[]`; the
`max_length` cap is applied only when `max_length` is truthy (`if
max_length:`), otherwise `all_simple_paths` runs uncapped (a simple path
has at most `|V| - 1` edges). -/
def findAllPaths (G : KnowledgeGraph) (source target : String)
    (maxLength : Option ℕ) : List (List String) :=
  if source ∈ G.nodes ∧ target ∈ G.nodes then
    match maxLength with
    | some n =>
      if n ≠ 0 then simplePathsAux G target n source [source]
      else simplePathsAux G target (G.nodes.length - 1) source [source]
    | none => simplePathsAux G target (G.nodes.length - 1) source [source]
  else []

/-- Model of `KnowledgeGraph.find_shortest_path`: absent endpoints give `None`; a
hop-count-shortest directed path otherwise, `None` when unreachable. -/
def findShortestPath (G : KnowledgeGraph) (source target : String) :
    Option (List String) :=
  if source ∈ G.nodes ∧ target ∈ G.nodes then
    match simplePathsAux G target (G.nodes.length - 1) source [source] with
    | [] => none
    | p :: rest => some (rest.foldl (fun best q => if q.length < best.length then q else best) p)
  else none

/-- The node/edge record produced by `KnowledgeGraph.to_dict`. -/
structure GraphDict where
  nodes : List (String × Meta)
  edges : List Edge
deriving DecidableEq, Repr

/-- Model of `KnowledgeGraph.to_dict`: one record per node with
`entity_data.get(node, {})`, one record per edge with its attributes. -/
def toDict (G : KnowledgeGraph) : GraphDict where
  nodes := G.nodes.map fun n => (n, (lookupMeta G.entityData n).getD [])
  edges := G.edges

/-- Model of `KnowledgeGraph.from_dict`: `add_entity` for every node record, then
`add_relationship` for every edge record, onto a fresh graph. -/
def fromDict (d : GraphDict) : KnowledgeGraph :=
  let kg1 := d.nodes.foldl (fun kg nd => addEntity kg nd.1 (some nd.2)) emptyKG
  d.edges.foldl
    (fun kg ed =>
      addRelationship kg ed.source ed.target ed.weight ed.relationship_type
        (some ed.metadata))
    kg1

/-! ### Mutation sequences and the well-formedness invariant -/

/-- One public mutation of the graph store. -/
inductive Op where
  | ent (entity : String) (metadata : Option Meta)
  | rel (source target : String) (weight : ℚ) (relationshipType : String)
      (metadata : Option Meta)

/-- Apply one mutation. -/
def applyOp (G : KnowledgeGraph) : Op → KnowledgeGraph
  | .ent e md => addEntity G e md
  | .rel s t w ty md => addRelationship G s t w ty md

/-- Run a sequence of `add_entity` / `add_relationship` calls on a fresh
graph. -/
def runOps (ops : List Op) : KnowledgeGraph := ops.foldl applyOp emptyKG

/-- Invariant holding for every graph reachable through the public API:
no duplicate nodes, at most one edge per ordered pair, clamped weights,
edge endpoints registered as nodes, and `entity_data` a dict keyed by
nodes with only truthy (non-empty) values. -/
def WF (G : KnowledgeGraph) : Prop :=
  G.nodes.Nodup ∧
  G.edges.Pairwise (fun a b => a.source ≠ b.source ∨ a.target ≠ b.target) ∧
  (∀ ed ∈ G.edges, 0 ≤ ed.weight ∧ ed.weight ≤ 1) ∧
  (∀ ed ∈ G.edges, ed.source ∈ G.nodes ∧ ed.target ∈ G.nodes) ∧
  (G.entityData.map Prod.fst).Nodup ∧
  (∀ p ∈ G.entityData, p.1 ∈ G.nodes ∧ p.2 ≠ [])

instance (G : KnowledgeGraph) : Decidable (WF G) := by
  unfold WF; infer_instance

/-! ### PathAnalyzer -/

/-- Model of `PathAnalyzer._calculate_path_strength`: 0 for fewer than two entities
or no existing edges, otherwise the average existing-edge weight times the
length penalty `1 / (1 + (len(path) - 1 - 1) * 0.2)`. -/
def calculatePathStrength (G : KnowledgeGraph) (path : List String) : ℚ :=
  if path.length < 2 then 0
  else
    let ws := getPathWeights G path
    if ws = [] then 0
    else
      (ws.sum / ws.length) * (1 / (1 + (((path.length : ℚ) - 1) - 1) * (2 / 10)))

/-- Stable insertion into a descending-by-key sorted list: the new element
goes before the first element whose key is not larger (so earlier elements
win ties, as Python's stable `sort(reverse=True)` does). -/
def insertDescBy {α β : Type} [LinearOrder β] (key : α → β) (x : α) :
    List α → List α
  | [] => [x]
  | y :: ys => if key y ≤ key x then x :: y :: ys else y :: insertDescBy key x ys

/-- Stable sort, descending by key: model of Python
`list.sort(key=..., reverse=True)`. -/
def sortDescBy {α β : Type} [LinearOrder β] (key : α → β) :
    List α → List α
  | [] => []
  | x :: xs => insertDescBy key x (sortDescBy key xs)

/-- Undirected adjacency of `self.kg.graph.to_undirected()`: an edge in
either direction. -/
def undirAdj (G : KnowledgeGraph) (u v : String) : Bool :=
  G.edges.any fun ed =>
    (ed.source = u ∧ ed.target = v) ∨ (ed.source = v ∧ ed.target = u)

/-- Fold step of `networkx.number_connected_components`: a new node joins
(and merges) every existing component it is adjacent to. -/
def addToComponents (adj : String → String → Bool) (v : String)
    (comps : List (List String)) : List (List String) :=
  (v :: (comps.filter fun c => c.any fun u => adj v u).flatten) ::
    comps.filter fun c => ¬(c.any fun u => adj v u)

/-- Model of `networkx.number_connected_components` over a node list and an
undirected adjacency predicate. -/
def countComponents (ns : List String) (adj : String → String → Bool) : ℕ :=
  (ns.foldl (fun comps v => addToComponents adj v comps) []).length

/-- Component count of the undirected view after `remove_node(e)` (the
node and its incident edges are gone). -/
def componentsWithout (G : KnowledgeGraph) (e : String) : ℕ :=
  countComponents (G.nodes.erase e)
    (fun u v => decide (u ≠ e) && decide (v ≠ e) && undirAdj G u v)

/-- Model of `PathAnalyzer.find_critical_entities`: the entities whose removal
raises the component count of the undirected view, with the resulting
count, sorted descending by count. -/
def findCriticalEntities (G : KnowledgeGraph) : List (String × ℕ) :=
  let current := countComponents G.nodes (undirAdj G)
  sortDescBy (fun p => p.2)
    (G.nodes.filterMap fun e =>
      let n := componentsWithout G e
      if current < n then some (e, n) else none)

/-! ### RelationshipAnalyzer -/

/-- Model of `RelationshipAnalyzer.find_strongest_connections`: outgoing and
incoming connections merged, sorted descending by weight, first `n`;
empty for an absent entity. -/
def findStrongestConnections (G : KnowledgeGraph) (entity : String) (n : ℕ) :
    List (String × ℚ × String) :=
  if entity ∈ G.nodes then
    let rels := getEntityRelationships G entity
    (sortDescBy (fun c => c.2.1) (rels.1 ++ rels.2)).take n
  else []

/-- Model of `RelationshipAnalyzer.get_entity_influence_score`: 0 for an absent or
isolated entity, otherwise
`min(1, avg_weight * (1 + log(num_connections + 1) / 10))`. -/
noncomputable def getEntityInfluenceScore (G : KnowledgeGraph)
    (entity : String) : ℝ :=
  if entity ∈ G.nodes then
    let rels := getEntityRelationships G entity
    let totalWeight : ℚ :=
      (rels.1.map fun c => c.2.1).sum + (rels.2.map fun c => c.2.1).sum
    let numConnections : ℕ := rels.1.length + rels.2.length
    if numConnections = 0 then 0
    else
      min 1 (((totalWeight : ℝ) / numConnections) *
        (1 + Real.log ((numConnections : ℝ) + 1) / 10))
  else 0

/-- The influence formula as a function of the average incident weight and
the connection count. -/
noncomputable def influenceFormula (avg : ℝ) (n : ℕ) : ℝ :=
  min 1 (avg * (1 + Real.log ((n : ℝ) + 1) / 10))

/-- Model of `self.graph[s][t]` lookup on an edge list. -/
def findEdge (es : List Edge) (s t : String) : Option Edge :=
  es.find? fun ed => decide (ed.source = s ∧ ed.target = t)

/-- The stored relationship for an ordered pair, if any. -/
def lookupEdge (G : KnowledgeGraph) (s t : String) : Option Edge :=
  findEdge G.edges s t

/-- Distinct ordered pairs. -/
def edgeKeyNe (a b : Edge) : Prop := a.source ≠ b.source ∨ a.target ≠ b.target

instance : DecidableRel edgeKeyNe := fun a b => by
  unfold edgeKeyNe; infer_instance

/-- A simple directed path from `s` to `t`: nonempty, starts at `s`, ends
at `t`, every consecutive edge exists, no repeated entity. -/
def IsSimplePath (G : KnowledgeGraph) (s t : String) (p : List String) : Prop :=
  p.head? = some s ∧ p.getLast? = some t ∧
  List.Chain' (fun u v => hasEdge G u v = true) p ∧ p.Nodup

instance (G : KnowledgeGraph) (s t : String) (p : List String) :
    Decidable (IsSimplePath G s t p) := by
  unfold IsSimplePath; infer_instance

/-- Example graph: path A→B→C→D, built through the public API. -/
def exPath : KnowledgeGraph :=
  addRelationship
    (addRelationship
      (addRelationship emptyKG "A" "B" 1 "related_to" none)
      "B" "C" 1 "related_to" none)
    "C" "D" 1 "related_to" none

/-- Example graph: path A→B→C→D with uniform weight 9/10 (state as stored
after three `add_relationship` calls with weight 0.9). -/
def exPath9 : KnowledgeGraph where
  nodes := ["A", "B", "C", "D"]
  edges := [⟨"A", "B", 9/10, "related_to", []⟩,
    ⟨"B", "C", 9/10, "related_to", []⟩,
    ⟨"C", "D", 9/10, "related_to", []⟩]
  entityData := []

/-- Example graph: a single self-loop A→A. -/
def exLoop : KnowledgeGraph :=
  addRelationship emptyKG "A" "A" 1 "related_to" none

/-- Example graph: entity A carrying non-empty metadata. -/
def exMetaG : KnowledgeGraph := addEntity emptyKG "A" (some [("k", "v")])

/-! ### Dictionary lemmas -/

theorem lookupMeta_setMeta (d : List (String × Meta)) (k : String) (m : Meta)
    (e : String) :
    lookupMeta (setMeta d k m) e = if k = e then some m else lookupMeta d e := by
  induction d with
  | nil => simp [setMeta, lookupMeta]
  | cons p rest ih =>
    by_cases hk : p.1 = k
    · simp only [setMeta]
      rcases p with ⟨k', v⟩
      simp only at hk
      subst hk
      simp only [if_pos rfl, lookupMeta]
      by_cases he : k' = e <;> simp [he]
    · rcases p with ⟨k', v⟩
      simp only at hk
      simp only [setMeta, if_neg hk, lookupMeta]
      by_cases he : k' = e
      · subst he
        have : ¬(k = k') := fun h => hk h.symm
        simp [this]
      · simp [he, ih]

theorem mem_of_lookupMeta {d : List (String × Meta)} {e : String} {m : Meta}
    (h : lookupMeta d e = some m) : (e, m) ∈ d := by
  induction d with
  | nil => simp [lookupMeta] at h
  | cons p rest ih =>
    rcases p with ⟨k, v⟩
    by_cases hk : k = e
    · subst hk
      have h' : v = m := by simpa [lookupMeta] using h
      subst h'
      exact List.mem_cons_self _ _
    · simp only [lookupMeta, if_neg hk] at h
      exact List.mem_cons_of_mem _ (ih h)

theorem lookupMeta_eq_none_of_not_mem {d : List (String × Meta)} {e : String}
    (h : e ∉ d.map Prod.fst) : lookupMeta d e = none := by
  induction d with
  | nil => rfl
  | cons p rest ih =>
    rcases p with ⟨k, v⟩
    simp only [List.map_cons, List.mem_cons, not_or] at h
    have hk : k ≠ e := fun hh => h.1 hh.symm
    simp only [lookupMeta, if_neg hk]
    exact ih h.2

theorem lookupMeta_map_self (ns : List String) (f : String → Meta) (e : String) :
    lookupMeta (ns.map fun n => (n, f n)) e =
      if e ∈ ns then some (f e) else none := by
  induction ns with
  | nil => simp [lookupMeta]
  | cons n rest ih =>
    simp only [List.map_cons, lookupMeta]
    by_cases hn : n = e
    · subst hn
      simp
    · have : e ≠ n := fun h => hn h.symm
      simp [hn, this, ih]

theorem map_fst_setMeta (d : List (String × Meta)) (k : String) (m : Meta) :
    (setMeta d k m).map Prod.fst =
      if k ∈ d.map Prod.fst then d.map Prod.fst else d.map Prod.fst ++ [k] := by
  induction d with
  | nil => simp [setMeta]
  | cons p rest ih =>
    rcases p with ⟨k', v⟩
    by_cases hk : k' = k
    · subst hk
      simp [setMeta]
    · have : ¬(k = k') := fun h => hk h.symm
      simp only [setMeta, if_neg hk, List.map_cons, List.mem_cons, this,
        false_or]
      by_cases hmem : k ∈ rest.map Prod.fst <;> simp [hmem, ih]

theorem mem_setMeta {d : List (String × Meta)} {k : String} {m : Meta}
    {p : String × Meta} (h : p ∈ setMeta d k m) : p = (k, m) ∨ p ∈ d := by
  induction d with
  | nil => simpa [setMeta] using h
  | cons q rest ih =>
    rcases q with ⟨k', v⟩
    by_cases hk : k' = k
    · have h2 : p = (k, m) ∨ p ∈ rest := by simpa [setMeta, hk] using h
      rcases h2 with h2 | h2
      · exact Or.inl h2
      · exact Or.inr (List.mem_cons_of_mem _ h2)
    · simp only [setMeta, if_neg hk, List.mem_cons] at h
      rcases h with h | h
      · exact Or.inr (by simp [h])
      · rcases ih h with h' | h'
        · exact Or.inl h'
        · exact Or.inr (List.mem_cons_of_mem _ h')

/-! ### Edge-list lemmas -/

theorem mem_setEdge {es : List Edge} {e x : Edge} (h : x ∈ setEdge es e) :
    x = e ∨ x ∈ es := by
  induction es with
  | nil => simpa [setEdge] using h
  | cons ed rest ih =>
    by_cases hk : ed.source = e.source ∧ ed.target = e.target
    · simp only [setEdge, if_pos hk, List.mem_cons] at h
      rcases h with h | h
      · exact Or.inl h
      · exact Or.inr (List.mem_cons_of_mem _ h)
    · simp only [setEdge, if_neg hk, List.mem_cons] at h
      rcases h with h | h
      · exact Or.inr (by simp [h])
      · rcases ih h with h' | h'
        · exact Or.inl h'
        · exact Or.inr (List.mem_cons_of_mem _ h')

theorem setEdge_of_fresh {es : List Edge} {e : Edge}
    (h : ∀ ed ∈ es, edgeKeyNe ed e) : setEdge es e = es ++ [e] := by
  induction es with
  | nil => rfl
  | cons ed rest ih =>
    have hed := h ed (List.mem_cons_self _ _)
    have hk : ¬(ed.source = e.source ∧ ed.target = e.target) := by
      rcases hed with h' | h' <;> intro hh
      · exact h' hh.1
      · exact h' hh.2
    simp only [setEdge, if_neg hk, List.cons_append, List.cons.injEq, true_and]
    exact ih fun x hx => h x (List.mem_cons_of_mem _ hx)

theorem setEdge_pairwise {es : List Edge} {e : Edge}
    (h : es.Pairwise edgeKeyNe) : (setEdge es e).Pairwise edgeKeyNe := by
  induction es with
  | nil => simp [setEdge, List.pairwise_singleton]
  | cons ed rest ih =>
    rcases List.pairwise_cons.mp h with ⟨hhead, htail⟩
    by_cases hk : ed.source = e.source ∧ ed.target = e.target
    · simp only [setEdge, if_pos hk]
      refine List.pairwise_cons.mpr ⟨fun b hb => ?_, htail⟩
      have := hhead b hb
      rcases this with h' | h'
      · exact Or.inl (hk.1 ▸ h')
      · exact Or.inr (hk.2 ▸ h')
    · simp only [setEdge, if_neg hk]
      refine List.pairwise_cons.mpr ⟨fun b hb => ?_, ih htail⟩
      rcases mem_setEdge hb with rfl | hb'
      · by_cases hs : ed.source = b.source
        · exact Or.inr fun ht => hk ⟨hs, ht⟩
        · exact Or.inl hs
      · exact hhead b hb'

theorem findEdge_setEdge_self (es : List Edge) (e : Edge) :
    findEdge (setEdge es e) e.source e.target = some e := by
  induction es with
  | nil => simp [setEdge, findEdge]
  | cons ed rest ih =>
    by_cases hk : ed.source = e.source ∧ ed.target = e.target
    · simp [setEdge, if_pos hk, findEdge]
    · simp only [setEdge, if_neg hk]
      unfold findEdge at ih ⊢
      rw [List.find?_cons_of_neg _ (by simpa using hk)]
      exact ih

theorem findEdge_setEdge_other (es : List Edge) (e : Edge) (s t : String)
    (h : ¬(s = e.source ∧ t = e.target)) :
    findEdge (setEdge es e) s t = findEdge es s t := by
  have he : ¬(e.source = s ∧ e.target = t) := fun hh => h ⟨hh.1.symm, hh.2.symm⟩
  induction es with
  | nil =>
    simp only [setEdge]
    unfold findEdge
    rw [List.find?_cons_of_neg _ (by simpa using he)]
  | cons ed rest ih =>
    by_cases hk : ed.source = e.source ∧ ed.target = e.target
    · have hed : ¬(ed.source = s ∧ ed.target = t) := by
        intro hh
        exact he ⟨hk.1 ▸ hh.1, hk.2 ▸ hh.2⟩
      simp only [setEdge, if_pos hk]
      unfold findEdge
      rw [List.find?_cons_of_neg _ (by simpa using he),
        List.find?_cons_of_neg _ (by simpa using hed)]
    · simp only [setEdge, if_neg hk]
      unfold findEdge at ih ⊢
      by_cases hed : ed.source = s ∧ ed.target = t
      · rw [List.find?_cons_of_pos _ (by simpa using hed),
          List.find?_cons_of_pos _ (by simpa using hed)]
      · rw [List.find?_cons_of_neg _ (by simpa using hed),
          List.find?_cons_of_neg _ (by simpa using hed)]
        exact ih

theorem setEdge_length_of_found {es : List Edge} {e : Edge}
    (h : (findEdge es e.source e.target).isSome) :
    (setEdge es e).length = es.length := by
  induction es with
  | nil => simp [findEdge] at h
  | cons ed rest ih =>
    by_cases hk : ed.source = e.source ∧ ed.target = e.target
    · simp [setEdge, if_pos hk]
    · simp only [setEdge, if_neg hk, List.length_cons]
      unfold findEdge at h
      rw [List.find?_cons_of_neg _ (by simpa using hk)] at h
      rw [ih h]

/-! ### `add_entity` and `add_relationship` structure lemmas -/

theorem addEntity_edges (G : KnowledgeGraph) (e : String) (md : Option Meta) :
    (addEntity G e md).edges = G.edges := rfl

theorem addEntity_nodes_of_mem {G : KnowledgeGraph} {e : String}
    (md : Option Meta) (h : e ∈ G.nodes) : (addEntity G e md).nodes = G.nodes := by
  simp [addEntity, if_pos h]

theorem addEntity_nodes_of_not_mem {G : KnowledgeGraph} {e : String}
    (md : Option Meta) (h : e ∉ G.nodes) :
    (addEntity G e md).nodes = G.nodes ++ [e] := by
  simp [addEntity, if_neg h]

theorem mem_addEntity_nodes {G : KnowledgeGraph} {e x : String}
    {md : Option Meta} :
    x ∈ (addEntity G e md).nodes ↔ x ∈ G.nodes ∨ x = e := by
  by_cases h : e ∈ G.nodes
  · rw [addEntity_nodes_of_mem md h]
    constructor
    · exact Or.inl
    · rintro (hx | rfl)
      · exact hx
      · exact h
  · rw [addEntity_nodes_of_not_mem md h]
    simp

theorem subset_addEntity_nodes (G : KnowledgeGraph) (e : String)
    (md : Option Meta) : G.nodes ⊆ (addEntity G e md).nodes := by
  intro x hx
  exact mem_addEntity_nodes.mpr (Or.inl hx)

theorem addEntity_entityData_none (G : KnowledgeGraph) (e : String) :
    (addEntity G e none).entityData = G.entityData := rfl

theorem addEntity_entityData_empty (G : KnowledgeGraph) (e : String) :
    (addEntity G e (some [])).entityData = G.entityData := rfl

theorem addEntity_entityData_some {G : KnowledgeGraph} {e : String} {m : Meta}
    (h : m ≠ []) :
    (addEntity G e (some m)).entityData = setMeta G.entityData e m := by
  simp [addEntity, if_neg h]

theorem addRelationship_edges (G : KnowledgeGraph) (s t : String) (w : ℚ)
    (ty : String) (md : Option Meta) :
    (addRelationship G s t w ty md).edges =
      setEdge G.edges ⟨s, t, max 0 (min 1 w), ty, md.getD []⟩ := by
  simp only [addRelationship]
  split_ifs <;> rfl

theorem addRelationship_entityData (G : KnowledgeGraph) (s t : String) (w : ℚ)
    (ty : String) (md : Option Meta) :
    (addRelationship G s t w ty md).entityData = G.entityData := by
  simp only [addRelationship]
  split_ifs <;> rfl

theorem addRelationship_nodes_of_mem {G : KnowledgeGraph} {s t : String}
    (w : ℚ) (ty : String) (md : Option Meta) (hs : s ∈ G.nodes)
    (ht : t ∈ G.nodes) : (addRelationship G s t w ty md).nodes = G.nodes := by
  simp only [addRelationship, if_pos hs, if_pos ht]

theorem mem_addRelationship_nodes {G : KnowledgeGraph} {s t x : String}
    {w : ℚ} {ty : String} {md : Option Meta} :
    x ∈ (addRelationship G s t w ty md).nodes ↔
      x ∈ G.nodes ∨ x = s ∨ x = t := by
  simp only [addRelationship]
  split_ifs with h1 h2 h2 <;>
    simp only [mem_addEntity_nodes] at * <;>
    refine ⟨fun hh => by tauto, fun hh => ?_⟩ <;>
    rcases hh with hx | rfl | rfl <;> tauto

theorem addEntity_none_of_mem {G : KnowledgeGraph} {e : String}
    (h : e ∈ G.nodes) : addEntity G e none = G := by
  cases G
  simp [addEntity, if_pos h]

theorem addRelationship_nodes (G : KnowledgeGraph) (s t : String) (w : ℚ)
    (ty : String) (md : Option Meta) :
    (addRelationship G s t w ty md).nodes =
      (addEntity (addEntity G s none) t none).nodes := by
  simp only [addRelationship]
  split_ifs with h1 h2 h2
  · rw [addEntity_none_of_mem h1, addEntity_none_of_mem h2]
  · rw [addEntity_none_of_mem h1]
  · rw [addEntity_none_of_mem h2]
  · rfl

theorem nodup_addEntity_nodes {G : KnowledgeGraph} {e : String}
    (md : Option Meta) (h : G.nodes.Nodup) : (addEntity G e md).nodes.Nodup := by
  by_cases hm : e ∈ G.nodes
  · rw [addEntity_nodes_of_mem md hm]
    exact h
  · rw [addEntity_nodes_of_not_mem md hm]
    simp [List.nodup_append, h, hm]

/-! ### Clamping -/

theorem clamp_nonneg (w : ℚ) : 0 ≤ max 0 (min 1 w) := le_max_left _ _

theorem clamp_le_one (w : ℚ) : max 0 (min 1 w) ≤ 1 :=
  max_le (by norm_num) (min_le_left _ _)

theorem clamp_eq_of_bounds {w : ℚ} (h0 : 0 ≤ w) (h1 : w ≤ 1) :
    max 0 (min 1 w) = w := by
  rw [min_eq_right h1, max_eq_right h0]

/-! ### Preservation of the invariant -/

theorem wf_empty : WF emptyKG := by decide

theorem wf_addEntity {G : KnowledgeGraph} (e : String) (md : Option Meta)
    (h : WF G) : WF (addEntity G e md) := by
  obtain ⟨hn, hp, hw, hsrc, hdk, hdm⟩ := h
  refine ⟨nodup_addEntity_nodes md hn, ?_, ?_, ?_, ?_, ?_⟩
  · rw [addEntity_edges]
    exact hp
  · rw [addEntity_edges]
    exact hw
  · rw [addEntity_edges]
    intro ed hed
    exact ⟨subset_addEntity_nodes G e md (hsrc ed hed).1,
      subset_addEntity_nodes G e md (hsrc ed hed).2⟩
  · match md with
    | none => exact hdk
    | some m =>
      by_cases hm : m = []
      · subst hm
        exact hdk
      · rw [addEntity_entityData_some hm, map_fst_setMeta]
        by_cases hmem : e ∈ G.entityData.map Prod.fst
        · rw [if_pos hmem]
          exact hdk
        · rw [if_neg hmem]
          simp [List.nodup_append, hdk, hmem]
  · match md with
    | none =>
      intro p hpm
      exact ⟨subset_addEntity_nodes G e none (hdm p hpm).1, (hdm p hpm).2⟩
    | some m =>
      by_cases hm : m = []
      · subst hm
        intro p hpm
        exact ⟨subset_addEntity_nodes G e (some []) (hdm p hpm).1, (hdm p hpm).2⟩
      · rw [addEntity_entityData_some hm]
        intro p hpm
        rcases mem_setMeta hpm with rfl | hpm'
        · exact ⟨mem_addEntity_nodes.mpr (Or.inr rfl), hm⟩
        · exact ⟨subset_addEntity_nodes G e (some m) (hdm p hpm').1, (hdm p hpm').2⟩

theorem wf_addRelationship {G : KnowledgeGraph} (s t : String) (w : ℚ)
    (ty : String) (md : Option Meta) (h : WF G) :
    WF (addRelationship G s t w ty md) := by
  obtain ⟨hn, hp, hw, hsrc, hdk, hdm⟩ := h
  refine ⟨?_, ?_, ?_, ?_, ?_, ?_⟩
  · rw [addRelationship_nodes]
    exact nodup_addEntity_nodes none (nodup_addEntity_nodes none hn)
  · rw [addRelationship_edges]
    exact setEdge_pairwise hp
  · rw [addRelationship_edges]
    intro ed hed
    rcases mem_setEdge hed with rfl | hed'
    · exact ⟨clamp_nonneg w, clamp_le_one w⟩
    · exact hw ed hed'
  · rw [addRelationship_edges]
    intro ed hed
    rcases mem_setEdge hed with rfl | hed'
    · exact ⟨mem_addRelationship_nodes.mpr (Or.inr (Or.inl rfl)),
        mem_addRelationship_nodes.mpr (Or.inr (Or.inr rfl))⟩
    · exact ⟨mem_addRelationship_nodes.mpr (Or.inl (hsrc ed hed').1),
        mem_addRelationship_nodes.mpr (Or.inl (hsrc ed hed').2)⟩
  · rw [addRelationship_entityData]
    exact hdk
  · rw [addRelationship_entityData]
    intro p hpm
    exact ⟨mem_addRelationship_nodes.mpr (Or.inl (hdm p hpm).1), (hdm p hpm).2⟩

theorem wf_applyOp {G : KnowledgeGraph} (op : Op) (h : WF G) :
    WF (applyOp G op) := by
  cases op with
  | ent e md => exact wf_addEntity e md h
  | rel s t w ty md => exact wf_addRelationship s t w ty md h

theorem wf_foldl (ops : List Op) :
    ∀ G : KnowledgeGraph, WF G → WF (ops.foldl applyOp G) := by
  induction ops with
  | nil => exact fun G h => h
  | cons op rest ih => exact fun G h => ih (applyOp G op) (wf_applyOp op h)

/-- Every graph built by a sequence of public mutations is well-formed. -/
theorem wf_runOps (ops : List Op) : WF (runOps ops) :=
  wf_foldl ops emptyKG wf_empty

/-! ### Claim C2: weight clamping -/

/-- C2: every weight submitted to `add_relationship` is stored as
`max(0, min(1, w))`, and consequently every weight held in a graph built
through the public API lies in `[0, 1]`. -/
theorem claim_C2_weight_clamp :
    (∀ (G : KnowledgeGraph) (s t : String) (w : ℚ) (ty : String)
      (md : Option Meta),
      lookupEdge (addRelationship G s t w ty md) s t =
        some ⟨s, t, max 0 (min 1 w), ty, md.getD []⟩) ∧
    ∀ ops : List Op, ∀ ed ∈ (runOps ops).edges,
      0 ≤ ed.weight ∧ ed.weight ≤ 1 := by
  constructor
  · intro G s t w ty md
    unfold lookupEdge
    rw [addRelationship_edges]
    exact findEdge_setEdge_self G.edges ⟨s, t, max 0 (min 1 w), ty, md.getD []⟩
  · intro ops ed hed
    exact (wf_runOps ops).2.2.1 ed hed

/-- Witness for C2 at a concrete out-of-range weight 2 (stored as 1). -/
theorem claim_C2_weight_clamp_witness :
    lookupEdge (addRelationship emptyKG "A" "B" 2 "likes" none) "A" "B" =
      some ⟨"A", "B", max 0 (min 1 2), "likes", []⟩ ∧
    ((⟨"A", "B", 1, "likes", []⟩ : Edge) ∈
        (runOps [Op.rel "A" "B" 2 "likes" none]).edges ∧
      0 ≤ (⟨"A", "B", 1, "likes", []⟩ : Edge).weight ∧
        (⟨"A", "B", 1, "likes", []⟩ : Edge).weight ≤ 1) :=
  ⟨claim_C2_weight_clamp.1 emptyKG "A" "B" 2 "likes" none,
    by decide,
    claim_C2_weight_clamp.2 [Op.rel "A" "B" 2 "likes" none] _ (by decide)⟩

/-! ### Claim C7: edge uniqueness and overwrite -/

/-- C7: after any sequence of public mutations the relationship list has
at most one record per ordered pair, and adding a relationship for an
existing ordered pair replaces its attributes (same edge count, other
pairs untouched). -/
theorem claim_C7_edge_uniqueness :
    (∀ ops : List Op,
      (getRelationships (runOps ops)).Pairwise
        (fun a b => a.source ≠ b.source ∨ a.target ≠ b.target)) ∧
    ∀ (G : KnowledgeGraph) (s t : String) (w : ℚ) (ty : String)
      (md : Option Meta),
      lookupEdge (addRelationship G s t w ty md) s t =
        some ⟨s, t, max 0 (min 1 w), ty, md.getD []⟩ ∧
      ((lookupEdge G s t).isSome →
        (addRelationship G s t w ty md).edges.length = G.edges.length) ∧
      ∀ x y : String, ¬(x = s ∧ y = t) →
        lookupEdge (addRelationship G s t w ty md) x y = lookupEdge G x y := by
  constructor
  · intro ops
    exact (wf_runOps ops).2.1
  · intro G s t w ty md
    refine ⟨?_, ?_, ?_⟩
    · unfold lookupEdge
      rw [addRelationship_edges]
      exact findEdge_setEdge_self G.edges _
    · intro h
      rw [addRelationship_edges]
      exact setEdge_length_of_found h
    · intro x y hxy
      unfold lookupEdge
      rw [addRelationship_edges]
      exact findEdge_setEdge_other G.edges _ x y hxy

/-- Witness for C7: overwriting the A→B edge keeps one record and updates
the attributes. -/
theorem claim_C7_edge_uniqueness_witness :
    (getRelationships
        (runOps [Op.rel "A" "B" 1 "related_to" none,
          Op.rel "A" "B" 0 "likes" none])).Pairwise
      (fun a b => a.source ≠ b.source ∨ a.target ≠ b.target) ∧
    ((lookupEdge exLoop "A" "A").isSome →
      (addRelationship exLoop "A" "A" 0 "likes" none).edges.length =
        exLoop.edges.length) ∧
    (lookupEdge exLoop "A" "A").isSome :=
  ⟨claim_C7_edge_uniqueness.1 _,
    (claim_C7_edge_uniqueness.2 exLoop "A" "A" 0 "likes" none).2.1,
    by decide⟩

/-! ### Claim C9 (corrected): add_entity idempotence and metadata framing -/

/-- C9 counterexample: with entity A holding metadata `[(k, v)]`,
explicitly supplying the empty metadata mapping does NOT replace the
stored metadata (Python `if metadata:` is false for an empty dict),
contradicting the claim that a supplied mapping always replaces. -/
theorem claim_C9_counterexample :
    lookupMeta (addEntity exMetaG "A" (some [])).entityData "A" =
      some [("k", "v")] ∧
    some [("k", "v")] ≠ some ([] : Meta) := by
  constructor
  · rfl
  · simp

/-- C9 (amended): `add_entity` on an existing entity keeps the entity set
and all relationships; metadata is unchanged when `None` or an empty
mapping is supplied, and a supplied non-empty mapping entirely replaces
the stored metadata of that entity, leaving all other entities' metadata
untouched. -/
theorem claim_C9_add_entity_idempotent :
    ∀ (G : KnowledgeGraph) (e : String) (md : Option Meta),
      (addEntity G e md).edges = G.edges ∧
      (e ∈ G.nodes → (addEntity G e md).nodes = G.nodes) ∧
      (md = none ∨ md = some [] → (addEntity G e md).entityData = G.entityData) ∧
      ∀ m : Meta, md = some m → m ≠ [] →
        lookupMeta (addEntity G e md).entityData e = some m ∧
        ∀ x, x ≠ e → lookupMeta (addEntity G e md).entityData x =
          lookupMeta G.entityData x := by
  intro G e md
  refine ⟨addEntity_edges G e md, fun h => addEntity_nodes_of_mem md h, ?_, ?_⟩
  · rintro (rfl | rfl)
    · rfl
    · rfl
  · rintro m rfl hm
    rw [addEntity_entityData_some hm]
    refine ⟨?_, ?_⟩
    · rw [lookupMeta_setMeta]
      simp
    · intro x hx
      rw [lookupMeta_setMeta, if_neg fun hh => hx hh.symm]

/-- Witness for C9 at a concrete graph: re-adding A with fresh non-empty
metadata replaces it. -/
theorem claim_C9_add_entity_idempotent_witness :
    (addEntity exMetaG "A" (some [("k2", "v2")])).edges = exMetaG.edges ∧
    ("A" ∈ exMetaG.nodes ∧
      (addEntity exMetaG "A" (some [("k2", "v2")])).nodes = exMetaG.nodes) ∧
    lookupMeta (addEntity exMetaG "A" (some [("k2", "v2")])).entityData "A" =
      some [("k2", "v2")] :=
  ⟨(claim_C9_add_entity_idempotent exMetaG "A" (some [("k2", "v2")])).1,
    ⟨by decide,
      (claim_C9_add_entity_idempotent exMetaG "A" (some [("k2", "v2")])).2.1
        (by decide)⟩,
    ((claim_C9_add_entity_idempotent exMetaG "A"
        (some [("k2", "v2")])).2.2.2 [("k2", "v2")] rfl (by simp)).1⟩

/-! ### Claim C8: absent-entity queries degrade, never raise -/

/-- C8: every query referencing an entity not present in the graph
returns an empty or absent result. -/
theorem claim_C8_absent_queries :
    ∀ (G : KnowledgeGraph) (e x : String) (n : ℕ) (ml : Option ℕ),
      e ∉ G.nodes →
      getEntityRelationships G e = ([], []) ∧
      (∀ order : ℕ, getNeighbors G e order = ∅) ∧
      findAllPaths G e x ml = [] ∧
      findAllPaths G x e ml = [] ∧
      findShortestPath G e x = none ∧
      findShortestPath G x e = none ∧
      findStrongestConnections G e n = [] := by
  intro G e x n ml he
  refine ⟨?_, fun order => ?_, ?_, ?_, ?_, ?_, ?_⟩
  · simp [getEntityRelationships, he]
  · simp [getNeighbors, he]
  · simp [findAllPaths, he]
  · simp [findAllPaths, he]
  · simp [findShortestPath, he]
  · simp [findShortestPath, he]
  · simp [findStrongestConnections, he]

/-- Witness for C8: querying the absent entity Z on the example path
graph. -/
theorem claim_C8_absent_queries_witness :
    "Z" ∉ exPath.nodes ∧
    getEntityRelationships exPath "Z" = ([], []) ∧
    findAllPaths exPath "Z" "A" (some 3) = [] ∧
    findShortestPath exPath "A" "Z" = none ∧
    findStrongestConnections exPath "Z" 5 = [] := by
  have h := claim_C8_absent_queries exPath "Z" "A" 5 (some 3) (by decide)
  exact ⟨by decide, h.1, h.2.2.1, h.2.2.2.2.2.1, h.2.2.2.2.2.2⟩

/-! ### Claim C4: path strength score -/

/-- C4: a path with fewer than two entities or no existing edges scores
0; otherwise the strength is the average edge weight times
`1 / (1 + (L - 1) * 0.2)` with `L` the number of edges; a 1-hop path of
average weight 0.9 scores 0.9 and a 3-hop one scores 9/14 = 0.9/1.4. -/
theorem claim_C4_path_strength :
    (∀ (G : KnowledgeGraph) (p : List String), p.length < 2 →
      calculatePathStrength G p = 0) ∧
    (∀ (G : KnowledgeGraph) (p : List String), getPathWeights G p = [] →
      calculatePathStrength G p = 0) ∧
    (∀ (G : KnowledgeGraph) (p : List String), 2 ≤ p.length →
      getPathWeights G p ≠ [] →
      calculatePathStrength G p =
        getAveragePathWeight G p *
          (1 / (1 + (((p.length : ℚ) - 1) - 1) * (2/10)))) ∧
    calculatePathStrength exPath9 ["A", "B"] = 9/10 ∧
    calculatePathStrength exPath9 ["A", "B", "C", "D"] = 9/14 := by
  refine ⟨?_, ?_, ?_, ?_, ?_⟩
  · intro G p h
    simp only [calculatePathStrength, if_pos h]
  · intro G p h
    by_cases h2 : p.length < 2
    · simp only [calculatePathStrength, if_pos h2]
    · simp only [calculatePathStrength, if_neg h2, h]
      simp
  · intro G p h2 hne
    simp only [calculatePathStrength, getAveragePathWeight,
      if_neg (not_lt.mpr h2), if_neg hne]
  · norm_num [calculatePathStrength,
      show getPathWeights exPath9 ["A", "B"] = [9/10] from rfl]
  · norm_num [calculatePathStrength,
      show getPathWeights exPath9 ["A", "B", "C", "D"] =
        [9/10, 9/10, 9/10] from rfl]
    simp

/-- Witness for C4: the general strength formula applied to the 2-hop
prefix A→B→C of the 9/10-weight path graph. -/
theorem claim_C4_path_strength_witness :
    2 ≤ (["A", "B", "C"] : List String).length ∧
    getPathWeights exPath9 ["A", "B", "C"] ≠ [] ∧
    calculatePathStrength exPath9 ["A", "B", "C"] =
      getAveragePathWeight exPath9 ["A", "B", "C"] *
        (1 / (1 + (((["A", "B", "C"] : List String).length : ℚ) - 1 - 1) *
          (2/10))) :=
  ⟨by norm_num,
    by
      rw [show getPathWeights exPath9 ["A", "B", "C"] = [9/10, 9/10] from rfl]
      simp,
    claim_C4_path_strength.2.2.1 exPath9 ["A", "B", "C"] (by norm_num)
      (by
        rw [show getPathWeights exPath9 ["A", "B", "C"] = [9/10, 9/10] from rfl]
        simp)⟩

/-! ### Claim C3 (corrected): self-exclusion of neighborhoods -/

theorem mem_undirectedNeighbors {G : KnowledgeGraph} {u x : String} :
    x ∈ undirectedNeighbors G u ↔
      ∃ ed ∈ G.edges,
        (ed.source = u ∧ ed.target = x) ∨ (ed.source = x ∧ ed.target = u) := by
  simp only [undirectedNeighbors, List.mem_toFinset, List.mem_append,
    List.mem_filterMap]
  constructor
  · rintro (⟨ed, hed, hif⟩ | ⟨ed, hed, hif⟩)
    · by_cases h : ed.source = u
      · rw [if_pos h] at hif
        exact ⟨ed, hed, Or.inl ⟨h, by injection hif⟩⟩
      · rw [if_neg h] at hif
        cases hif
    · by_cases h : ed.target = u
      · rw [if_pos h] at hif
        exact ⟨ed, hed, Or.inr ⟨by injection hif, h⟩⟩
      · rw [if_neg h] at hif
        cases hif
  · rintro ⟨ed, hed, ⟨hs, ht⟩ | ⟨hs, ht⟩⟩
    · exact Or.inl ⟨ed, hed, by rw [if_pos hs, ht]⟩
    · exact Or.inr ⟨ed, hed, by rw [if_pos ht, hs]⟩

theorem self_mem_undirectedNeighbors_iff {G : KnowledgeGraph} {e : String} :
    e ∈ undirectedNeighbors G e ↔ hasEdge G e e = true := by
  rw [mem_undirectedNeighbors]
  unfold hasEdge
  rw [List.any_eq_true]
  constructor
  · rintro ⟨ed, hed, ⟨hs, ht⟩ | ⟨hs, ht⟩⟩ <;>
      exact ⟨ed, hed, by simp [hs, ht]⟩
  · rintro ⟨ed, hed, hh⟩
    rw [decide_eq_true_eq] at hh
    exact ⟨ed, hed, Or.inl hh⟩

theorem mem_bfs_visited (G : KnowledgeGraph) (e : String) :
    ∀ k : ℕ, e ∈ (bfsLevels G e k).2 := by
  intro k
  induction k with
  | zero => simp [bfsLevels]
  | succ k ih =>
    simp only [bfsLevels]
    exact Finset.mem_union_left _ ih

theorem not_mem_bfs_level (G : KnowledgeGraph) (e : String) (k : ℕ) :
    e ∉ (bfsLevels G e (k + 1)).1 := by
  simp only [bfsLevels]
  intro h
  exact (Finset.mem_sdiff.mp h).2 (mem_bfs_visited G e k)

/-- C3 counterexample: on the graph with the single self-loop A→A, entity
A is present and `get_neighbors(A, 1)` contains A itself, refuting the
claim that neighborhoods exclude the start entity for every order ≥ 1. -/
theorem claim_C3_counterexample :
    "A" ∈ exLoop.nodes ∧ 1 ≥ 1 ∧ "A" ∈ getNeighbors exLoop "A" 1 := by
  refine ⟨by decide, le_refl 1, ?_⟩
  decide

/-- C3 (amended): for every order ≥ 2 the neighborhood of `e` never
contains `e`; at order 1 it contains `e` exactly when the graph has a
self-loop at `e` — so without a self-loop, `e` is excluded at every
order ≥ 1. -/
theorem claim_C3_self_exclusion :
    (∀ (G : KnowledgeGraph) (e : String) (order : ℕ), 2 ≤ order →
      e ∉ getNeighbors G e order) ∧
    (∀ (G : KnowledgeGraph) (e : String), e ∈ G.nodes →
      (e ∈ getNeighbors G e 1 ↔ hasEdge G e e = true)) := by
  constructor
  · intro G e order h2
    unfold getNeighbors
    by_cases he : e ∈ G.nodes
    · rw [if_pos he, if_neg (by omega : ¬order = 1)]
      obtain ⟨k, rfl⟩ : ∃ k, order = k + 1 := ⟨order - 1, by omega⟩
      exact not_mem_bfs_level G e k
    · rw [if_neg he]
      exact Finset.not_mem_empty e
  · intro G e he
    unfold getNeighbors
    rw [if_pos he, if_pos rfl]
    exact self_mem_undirectedNeighbors_iff

/-- Witness for C3 (amended) on the path graph: B is excluded from its
own order-2 neighborhood, and B is not an order-1 neighbor of itself
because there is no self-loop. -/
theorem claim_C3_self_exclusion_witness :
    "B" ∉ getNeighbors exPath "B" 2 ∧
    ("B" ∈ exPath.nodes ∧
      ("B" ∈ getNeighbors exPath "B" 1 ↔ hasEdge exPath "B" "B" = true)) :=
  ⟨claim_C3_self_exclusion.1 exPath "B" 2 (by decide),
    ⟨by decide, claim_C3_self_exclusion.2 exPath "B" (by decide)⟩⟩

/-! ### Claim C6: critical entities -/

theorem mem_insertDescBy {α β : Type} [LinearOrder β] (key : α → β) (x a : α) :
    ∀ l : List α, a ∈ insertDescBy key x l ↔ a = x ∨ a ∈ l := by
  intro l
  induction l with
  | nil => simp [insertDescBy]
  | cons y ys ih =>
    unfold insertDescBy
    by_cases h : key y ≤ key x
    · rw [if_pos h]
      simp
    · rw [if_neg h]
      simp only [List.mem_cons, ih]
      tauto

theorem pairwise_insertDescBy {α β : Type} [LinearOrder β] (key : α → β)
    (x : α) :
    ∀ {l : List α}, l.Pairwise (fun a b => key b ≤ key a) →
      (insertDescBy key x l).Pairwise (fun a b => key b ≤ key a) := by
  intro l
  induction l with
  | nil =>
    intro _
    simp [insertDescBy]
  | cons y ys ih =>
    intro h
    rcases List.pairwise_cons.mp h with ⟨hy, hys⟩
    unfold insertDescBy
    by_cases hc : key y ≤ key x
    · rw [if_pos hc]
      refine List.pairwise_cons.mpr ⟨?_, h⟩
      intro b hb
      rcases List.mem_cons.mp hb with rfl | hb'
      · exact hc
      · exact le_trans (hy b hb') hc
    · rw [if_neg hc]
      refine List.pairwise_cons.mpr ⟨?_, ih hys⟩
      intro b hb
      rcases (mem_insertDescBy key x b ys).mp hb with rfl | hb'
      · exact le_of_not_le hc
      · exact hy b hb'

theorem mem_sortDescBy {α β : Type} [LinearOrder β] (key : α → β) (a : α) :
    ∀ l : List α, a ∈ sortDescBy key l ↔ a ∈ l := by
  intro l
  induction l with
  | nil => simp [sortDescBy]
  | cons x xs ih =>
    unfold sortDescBy
    rw [mem_insertDescBy, ih]
    simp

theorem pairwise_sortDescBy {α β : Type} [LinearOrder β] (key : α → β) :
    ∀ l : List α, (sortDescBy key l).Pairwise (fun a b => key b ≤ key a) := by
  intro l
  induction l with
  | nil => simp [sortDescBy]
  | cons x xs ih => exact pairwise_insertDescBy key x ih

/-- C6: `find_critical_entities` returns exactly the entities whose
removal strictly increases the component count of the undirected view,
paired with the resulting count, sorted descending by that count; on the
path graph A–B–C–D it returns B and C (with 2 components each) but
neither A nor D. -/
theorem claim_C6_critical_entities :
    (∀ (G : KnowledgeGraph) (e : String) (n : ℕ),
      (e, n) ∈ findCriticalEntities G ↔
        (e ∈ G.nodes ∧ n = componentsWithout G e ∧
          countComponents G.nodes (undirAdj G) < n)) ∧
    (∀ G : KnowledgeGraph,
      (findCriticalEntities G).Pairwise (fun a b => b.2 ≤ a.2)) ∧
    findCriticalEntities exPath = [("B", 2), ("C", 2)] := by
  refine ⟨?_, ?_, ?_⟩
  · intro G e n
    unfold findCriticalEntities
    rw [mem_sortDescBy, List.mem_filterMap]
    constructor
    · rintro ⟨e', he', hf⟩
      by_cases hc :
        countComponents G.nodes (undirAdj G) < componentsWithout G e'
      · rw [if_pos hc, Option.some.injEq, Prod.mk.injEq] at hf
        obtain ⟨rfl, rfl⟩ := hf
        exact ⟨he', rfl, hc⟩
      · rw [if_neg hc] at hf
        cases hf
    · rintro ⟨he, rfl, hc⟩
      exact ⟨e, he, by rw [if_pos hc]⟩
  · intro G
    unfold findCriticalEntities
    exact pairwise_sortDescBy _ _
  · decide

/-! ### Claim C1: export/import round-trip -/

theorem fromNodes_edges (L : List (String × Meta)) :
    ∀ kg : KnowledgeGraph,
      (L.foldl (fun kg nd => addEntity kg nd.1 (some nd.2)) kg).edges =
        kg.edges := by
  induction L with
  | nil => intro kg; rfl
  | cons nd rest ih =>
    intro kg
    rw [List.foldl_cons, ih, addEntity_edges]

theorem fromNodes_nodes (L : List (String × Meta)) :
    ∀ kg : KnowledgeGraph, (L.map Prod.fst).Nodup →
      (∀ k ∈ L.map Prod.fst, k ∉ kg.nodes) →
      (L.foldl (fun kg nd => addEntity kg nd.1 (some nd.2)) kg).nodes =
        kg.nodes ++ L.map Prod.fst := by
  induction L with
  | nil =>
    intro kg _ _
    simp
  | cons nd rest ih =>
    intro kg hnd hfresh
    have hnd2 : (nd.1 :: rest.map Prod.fst).Nodup := by simpa using hnd
    rcases List.nodup_cons.mp hnd2 with ⟨hk, hrest⟩
    have h1 : nd.1 ∉ kg.nodes := hfresh nd.1 (by simp)
    have hnodes : (addEntity kg nd.1 (some nd.2)).nodes = kg.nodes ++ [nd.1] :=
      addEntity_nodes_of_not_mem _ h1
    rw [List.foldl_cons, ih (addEntity kg nd.1 (some nd.2)) hrest ?_]
    · rw [hnodes, List.append_assoc]
      simp
    · intro k hkmem hmem
      rcases mem_addEntity_nodes.mp hmem with hk' | rfl
      · exact hfresh k (by simp [hkmem]) hk'
      · exact hk hkmem

theorem fromNodes_lookup (L : List (String × Meta)) :
    ∀ (kg : KnowledgeGraph) (e : String), (L.map Prod.fst).Nodup →
      lookupMeta
        (L.foldl (fun kg nd => addEntity kg nd.1 (some nd.2)) kg).entityData e =
      Option.elim (lookupMeta L e) (lookupMeta kg.entityData e)
        (fun m => if m = [] then lookupMeta kg.entityData e else some m) := by
  induction L with
  | nil =>
    intro kg e _
    rfl
  | cons nd rest ih =>
    intro kg e hnd
    rcases nd with ⟨k, m⟩
    have hnd2 : (k :: rest.map Prod.fst).Nodup := by simpa using hnd
    rcases List.nodup_cons.mp hnd2 with ⟨hk, hrest⟩
    rw [List.foldl_cons, ih (addEntity kg k (some m)) e hrest]
    by_cases he : k = e
    · subst he
      rw [lookupMeta_eq_none_of_not_mem hk]
      simp only [Option.elim_none]
      rw [show lookupMeta ((k, m) :: rest) k = some m by simp [lookupMeta]]
      simp only [Option.elim_some]
      by_cases hm : m = []
      · subst hm
        rw [addEntity_entityData_empty, if_pos rfl]
      · rw [addEntity_entityData_some hm, lookupMeta_setMeta, if_pos rfl,
          if_neg hm]
    · rw [show lookupMeta ((k, m) :: rest) e = lookupMeta rest e by
        simp [lookupMeta, he]]
      have heq : lookupMeta (addEntity kg k (some m)).entityData e =
          lookupMeta kg.entityData e := by
        by_cases hm : m = []
        · subst hm
          rw [addEntity_entityData_empty]
        · rw [addEntity_entityData_some hm, lookupMeta_setMeta, if_neg he]
      rw [heq]

theorem fromEdges_fold (es : List Edge) :
    ∀ kg : KnowledgeGraph,
      (∀ ed ∈ es, ed.source ∈ kg.nodes ∧ ed.target ∈ kg.nodes) →
      (∀ ed ∈ es, 0 ≤ ed.weight ∧ ed.weight ≤ 1) →
      es.Pairwise edgeKeyNe →
      (∀ ed ∈ es, ∀ ed' ∈ kg.edges, edgeKeyNe ed' ed) →
      es.foldl
        (fun kg ed =>
          addRelationship kg ed.source ed.target ed.weight
            ed.relationship_type (some ed.metadata)) kg =
        ⟨kg.nodes, kg.edges ++ es, kg.entityData⟩ := by
  induction es with
  | nil =>
    intro kg _ _ _ _
    cases kg
    simp
  | cons ed rest ih =>
    intro kg hmem hw hp hfresh
    have hm := hmem ed (List.mem_cons_self _ _)
    have hwd := hw ed (List.mem_cons_self _ _)
    have hkgn : (addRelationship kg ed.source ed.target ed.weight
        ed.relationship_type (some ed.metadata)).nodes = kg.nodes :=
      addRelationship_nodes_of_mem _ _ _ hm.1 hm.2
    have hkgd : (addRelationship kg ed.source ed.target ed.weight
        ed.relationship_type (some ed.metadata)).entityData = kg.entityData :=
      addRelationship_entityData _ _ _ _ _ _
    have hkge : (addRelationship kg ed.source ed.target ed.weight
        ed.relationship_type (some ed.metadata)).edges = kg.edges ++ [ed] := by
      rw [addRelationship_edges]
      have hcl :
          (⟨ed.source, ed.target, max 0 (min 1 ed.weight),
            ed.relationship_type, (some ed.metadata).getD []⟩ : Edge) = ed := by
        rw [clamp_eq_of_bounds hwd.1 hwd.2]
        rfl
      rw [hcl]
      exact setEdge_of_fresh fun x hx =>
        hfresh ed (List.mem_cons_self _ _) x hx
    rw [List.foldl_cons, ih _ ?_ ?_ ?_ ?_]
    · rw [hkgn, hkgd, hkge, List.append_assoc]
      rfl
    · intro e2 he2
      rw [hkgn]
      exact hmem e2 (List.mem_cons_of_mem _ he2)
    · intro e2 he2
      exact hw e2 (List.mem_cons_of_mem _ he2)
    · exact (List.pairwise_cons.mp hp).2
    · intro e2 he2 ed' hed'
      rw [hkge] at hed'
      rcases List.mem_append.mp hed' with hed' | hed'
      · exact hfresh e2 (List.mem_cons_of_mem _ he2) ed' hed'
      · rw [List.mem_singleton.mp hed']
        exact (List.pairwise_cons.mp hp).1 e2 he2

/-- C1: for every well-formed graph state, importing the record produced
by exporting it reconstructs the same entity list, the same edge list
(weights, types and edge metadata included), and an extensionally equal
entity-metadata mapping. -/
theorem claim_C1_roundtrip (G : KnowledgeGraph) (h : WF G) :
    (fromDict (toDict G)).nodes = G.nodes ∧
    (fromDict (toDict G)).edges = G.edges ∧
    ∀ e, lookupMeta (fromDict (toDict G)).entityData e =
      lookupMeta G.entityData e := by
  obtain ⟨hn, hp, hw, hsrc, hdk, hdm⟩ := h
  have hLkeys :
      ((G.nodes.map fun n => (n, (lookupMeta G.entityData n).getD [])).map
        Prod.fst) = G.nodes := by
    rw [List.map_map,
      show (Prod.fst ∘ fun n : String =>
        (n, (lookupMeta G.entityData n).getD [])) = id from rfl,
      List.map_id]
  have h1nodes :
      ((G.nodes.map fun n => (n, (lookupMeta G.entityData n).getD [])).foldl
        (fun kg nd => addEntity kg nd.1 (some nd.2)) emptyKG).nodes =
        G.nodes := by
    rw [fromNodes_nodes _ emptyKG (by rw [hLkeys]; exact hn)
      (by intro k _ hmem; exact absurd hmem (List.not_mem_nil k))]
    rw [hLkeys]
    rfl
  have h1edges :
      ((G.nodes.map fun n => (n, (lookupMeta G.entityData n).getD [])).foldl
        (fun kg nd => addEntity kg nd.1 (some nd.2)) emptyKG).edges = [] :=
    fromNodes_edges _ emptyKG
  have h1lookup : ∀ e,
      lookupMeta
        ((G.nodes.map fun n => (n, (lookupMeta G.entityData n).getD [])).foldl
          (fun kg nd => addEntity kg nd.1 (some nd.2)) emptyKG).entityData e =
        lookupMeta G.entityData e := by
    intro e
    rw [fromNodes_lookup _ emptyKG e (by rw [hLkeys]; exact hn),
      lookupMeta_map_self]
    by_cases he : e ∈ G.nodes
    · rw [if_pos he]
      simp only [Option.elim_some]
      cases hcase : lookupMeta G.entityData e with
      | none => simp [hcase, emptyKG, lookupMeta]
      | some m =>
        have hm : m ≠ [] := (hdm (e, m) (mem_of_lookupMeta hcase)).2
        simp [hcase, hm]
    · rw [if_neg he]
      simp only [Option.elim_none]
      have hnotkey : e ∉ G.entityData.map Prod.fst := by
        intro hmem
        rcases List.mem_map.mp hmem with ⟨p, hpm, rfl⟩
        exact he (hdm p hpm).1
      rw [lookupMeta_eq_none_of_not_mem hnotkey]
      rfl
  have h2 := fromEdges_fold G.edges
    ((G.nodes.map fun n => (n, (lookupMeta G.entityData n).getD [])).foldl
      (fun kg nd => addEntity kg nd.1 (some nd.2)) emptyKG)
    (by
      intro ed hed
      rw [h1nodes]
      exact hsrc ed hed)
    hw hp
    (by
      intro ed hed ed' hed'
      rw [h1edges] at hed'
      exact absurd hed' (List.not_mem_nil ed'))
  have hfd : fromDict (toDict G) =
      ⟨((G.nodes.map fun n => (n, (lookupMeta G.entityData n).getD [])).foldl
          (fun kg nd => addEntity kg nd.1 (some nd.2)) emptyKG).nodes,
        ((G.nodes.map fun n => (n, (lookupMeta G.entityData n).getD [])).foldl
          (fun kg nd => addEntity kg nd.1 (some nd.2)) emptyKG).edges ++
          G.edges,
        ((G.nodes.map fun n => (n, (lookupMeta G.entityData n).getD [])).foldl
          (fun kg nd => addEntity kg nd.1 (some nd.2)) emptyKG).entityData⟩ := by
    unfold fromDict toDict
    exact h2
  refine ⟨?_, ?_, ?_⟩
  · rw [hfd]
    exact h1nodes
  · rw [hfd, h1edges]
    rfl
  · intro e
    rw [hfd]
    exact h1lookup e

/-- Witness for C1 on a concrete graph with entity metadata, edge
metadata and a non-default weight. -/
theorem claim_C1_roundtrip_witness :
    WF (addRelationship exMetaG "A" "B" 1 "likes" (some [("d", "x")])) ∧
    (fromDict
        (toDict (addRelationship exMetaG "A" "B" 1 "likes"
          (some [("d", "x")])))).edges =
      (addRelationship exMetaG "A" "B" 1 "likes" (some [("d", "x")])).edges :=
  ⟨by decide,
    (claim_C1_roundtrip
      (addRelationship exMetaG "A" "B" 1 "likes" (some [("d", "x")]))
      (by decide)).2.1⟩

/-! ### Claim C10: the max_length cap is truthiness-gated -/

theorem hasEdge_iff_mem_successors {G : KnowledgeGraph} {u v : String} :
    hasEdge G u v = true ↔ v ∈ successors G u := by
  unfold hasEdge successors
  rw [List.any_eq_true]
  simp only [List.mem_filterMap, decide_eq_true_eq]
  constructor
  · rintro ⟨ed, hed, hs, ht⟩
    exact ⟨ed, hed, by rw [if_pos hs, ht]⟩
  · rintro ⟨ed, hed, hif⟩
    by_cases h : ed.source = u
    · rw [if_pos h] at hif
      exact ⟨ed, hed, h, by injection hif⟩
    · rw [if_neg h] at hif
      cases hif

theorem eq_singleton_of_head_last_nodup {p : List String} {t : String}
    (hh : p.head? = some t) (hl : p.getLast? = some t) (hn : p.Nodup) :
    p = [t] := by
  match p with
  | [] => cases hh
  | [a] =>
    injection hh with h
    rw [h]
  | a :: b :: rest =>
    injection hh with ha
    have hl' : (b :: rest).getLast? = some t := by
      rwa [List.getLast?_cons_cons] at hl
    have hmem : t ∈ b :: rest :=
      List.mem_of_mem_getLast? (Option.mem_def.mpr hl')
    exact absurd (ha ▸ hmem) (List.nodup_cons.mp hn).1

theorem mem_simplePathsAux (G : KnowledgeGraph) (t : String) :
    ∀ (fuel : ℕ) (u : String) (visited : List String) (p : List String),
      u ∈ visited →
      (p ∈ simplePathsAux G t fuel u visited ↔
        (p.head? = some u ∧ p.getLast? = some t ∧
          List.Chain' (fun a b => hasEdge G a b = true) p ∧ p.Nodup ∧
          (∀ x ∈ p.tail, x ∉ visited) ∧ p.length ≤ fuel + 1)) := by
  intro fuel
  induction fuel with
  | zero =>
    intro u visited p hu
    simp only [simplePathsAux]
    by_cases ht : u = t
    · subst ht
      rw [if_pos rfl, List.mem_singleton]
      constructor
      · rintro rfl
        refine ⟨rfl, rfl, by simp, by simp, by simp, by simp⟩
      · rintro ⟨hh, hl, _, hn, _, _⟩
        exact eq_singleton_of_head_last_nodup hh hl hn
    · rw [if_neg ht]
      constructor
      · intro hp
        cases hp
      · rintro ⟨hh, hl, _, _, _, hlen⟩
        exfalso
        have hp1 : p = [u] := by
          match p, hh with
          | a :: rest, hh =>
            injection hh with h1
            subst h1
            match rest, hlen with
            | [], _ => rfl
            | b :: r2, hlen => simp at hlen
        rw [hp1] at hl
        injection hl with h2
        exact ht h2
  | succ k ih =>
    intro u visited p hu
    simp only [simplePathsAux]
    by_cases ht : u = t
    · subst ht
      rw [if_pos rfl, List.mem_singleton]
      constructor
      · rintro rfl
        refine ⟨rfl, rfl, by simp, by simp, by simp, by simp⟩
      · rintro ⟨hh, hl, _, hn, _, _⟩
        exact eq_singleton_of_head_last_nodup hh hl hn
    · rw [if_neg ht, List.mem_flatMap]
      constructor
      · rintro ⟨v, hv, hpmem⟩
        rw [List.mem_filter, decide_eq_true_eq] at hv
        obtain ⟨hvsucc, hvnotvis⟩ := hv
        rw [List.mem_map] at hpmem
        obtain ⟨q, hq, rfl⟩ := hpmem
        obtain ⟨qh, ql, qc, qn, qv, qlen⟩ :=
          (ih v (v :: visited) q (List.mem_cons_self _ _)).mp hq
        obtain ⟨b, l, rfl⟩ : ∃ b l, q = b :: l := by
          match q, qh with
          | b :: l, _ => exact ⟨b, l, rfl⟩
        injection qh with hb
        subst hb
        refine ⟨rfl, ?_, ?_, ?_, ?_, ?_⟩
        · rwa [List.getLast?_cons_cons]
        · rw [List.chain'_cons]
          exact ⟨hasEdge_iff_mem_successors.mpr hvsucc, qc⟩
        · rw [List.nodup_cons]
          refine ⟨?_, qn⟩
          intro humem
          rcases List.mem_cons.mp humem with rfl | hul
          · exact hvnotvis hu
          · exact qv u hul (List.mem_cons_of_mem _ hu)
        · intro x hx
          rcases List.mem_cons.mp hx with rfl | hxl
          · exact hvnotvis
          · exact fun hxv => qv x hxl (List.mem_cons_of_mem _ hxv)
        · simpa using Nat.succ_le_succ qlen
      · rintro ⟨hh, hl, hc, hn, hv, hlen⟩
        obtain ⟨u', q, rfl⟩ : ∃ u' q, p = u' :: q := by
          match p, hh with
          | u' :: q, _ => exact ⟨u', q, rfl⟩
        injection hh with h1
        subst h1
        cases q with
        | nil =>
          exfalso
          injection hl with h2
          exact ht h2
        | cons b l =>
          refine ⟨b, ?_, ?_⟩
          · rw [List.mem_filter, decide_eq_true_eq]
            exact ⟨hasEdge_iff_mem_successors.mp (List.chain'_cons.mp hc).1,
              hv b (List.mem_cons_self _ _)⟩
          · rw [List.mem_map]
            refine ⟨b :: l, ?_, rfl⟩
            apply (ih b (b :: visited) (b :: l) (List.mem_cons_self _ _)).mpr
            refine ⟨rfl, ?_, (List.chain'_cons.mp hc).2,
              (List.nodup_cons.mp hn).2, ?_, ?_⟩
            · rwa [List.getLast?_cons_cons] at hl
            · intro x hx hxin
              rcases List.mem_cons.mp hxin with rfl | hxv
              · exact (List.nodup_cons.mp (List.nodup_cons.mp hn).2).1 hx
              · exact hv x (List.mem_cons_of_mem _ hx) hxv
            · have : (b :: l).length + 1 ≤ k + 2 := by simpa using hlen
              omega

theorem path_subset_nodes {G : KnowledgeGraph}
    (hsrc : ∀ ed ∈ G.edges, ed.source ∈ G.nodes ∧ ed.target ∈ G.nodes) :
    ∀ (p : List String) (s : String), p.head? = some s → s ∈ G.nodes →
      List.Chain' (fun a b => hasEdge G a b = true) p →
      ∀ x ∈ p, x ∈ G.nodes := by
  intro p
  induction p with
  | nil =>
    intro s hh
    cases hh
  | cons a q ih =>
    intro s hh hs hc x hx
    injection hh with h1
    subst h1
    rcases List.mem_cons.mp hx with rfl | hxq
    · exact hs
    · cases q with
      | nil => cases hxq
      | cons b l =>
        have hedge := (List.chain'_cons.mp hc).1
        have hb : b ∈ G.nodes := by
          unfold hasEdge at hedge
          rw [List.any_eq_true] at hedge
          obtain ⟨ed, hed, hprop⟩ := hedge
          rw [decide_eq_true_eq] at hprop
          rw [← hprop.2]
          exact (hsrc ed hed).2
        exact ih b rfl hb (List.chain'_cons.mp hc).2 x hxq

theorem mem_findAllPaths_none {G : KnowledgeGraph} {s t : String}
    {p : List String} (hWF : WF G) (hs : s ∈ G.nodes) (ht : t ∈ G.nodes) :
    p ∈ findAllPaths G s t none ↔ IsSimplePath G s t p := by
  unfold findAllPaths
  rw [if_pos ⟨hs, ht⟩,
    mem_simplePathsAux G t (G.nodes.length - 1) s [s] p
      (List.mem_singleton.mpr rfl)]
  unfold IsSimplePath
  constructor
  · rintro ⟨hh, hl, hc, hn, _, _⟩
    exact ⟨hh, hl, hc, hn⟩
  · rintro ⟨hh, hl, hc, hn⟩
    refine ⟨hh, hl, hc, hn, ?_, ?_⟩
    · intro x hx hxs
      rw [List.mem_singleton] at hxs
      subst hxs
      obtain ⟨a, q, rfl⟩ : ∃ a q, p = a :: q := by
        match p, hh with
        | a :: q, _ => exact ⟨a, q, rfl⟩
      injection hh with h1
      subst h1
      exact (List.nodup_cons.mp hn).1 hx
    · have hsub : ∀ x ∈ p, x ∈ G.nodes :=
        path_subset_nodes hWF.2.2.2.1 p s hh hs hc
      have hle : p.length ≤ G.nodes.length :=
        (List.subperm_of_subset hn hsub).length_le
      have hpos : 1 ≤ G.nodes.length :=
        List.length_pos.mpr (List.ne_nil_of_mem hs)
      omega

/-- C10: `find_all_paths` applies the `max_length` cap only when the
value is truthy; with `max_length = 0` it enumerates all simple directed
paths exactly as with no cap (and in particular does not return an empty
list); the uncapped enumeration returns exactly the simple directed
paths from source to target. -/
theorem claim_C10_max_length_zero :
    (∀ (G : KnowledgeGraph) (s t : String),
      findAllPaths G s t (some 0) = findAllPaths G s t none) ∧
    (∀ (G : KnowledgeGraph) (s t : String) (p : List String), WF G →
      s ∈ G.nodes → t ∈ G.nodes →
      (p ∈ findAllPaths G s t none ↔ IsSimplePath G s t p)) ∧
    findAllPaths exPath "A" "C" (some 0) = [["A", "B", "C"]] := by
  refine ⟨?_, ?_, ?_⟩
  · intro G s t
    by_cases h : s ∈ G.nodes ∧ t ∈ G.nodes <;> simp [findAllPaths, h]
  · intro G s t p hWF hs ht
    exact mem_findAllPaths_none hWF hs ht
  · decide

/-- Witness for C10: the full path A→B→C→D is produced by the uncapped
enumeration of the concrete path graph, matching the simple-path
characterization. -/
theorem claim_C10_max_length_zero_witness :
    WF exPath ∧ "A" ∈ exPath.nodes ∧ "D" ∈ exPath.nodes ∧
    (["A", "B", "C", "D"] ∈ findAllPaths exPath "A" "D" none ↔
      IsSimplePath exPath "A" "D" ["A", "B", "C", "D"]) :=
  ⟨by decide, by decide, by decide,
    claim_C10_max_length_zero.2.1 exPath "A" "D" ["A", "B", "C", "D"]
      (by decide) (by decide) (by decide)⟩

/-! ### Claim C5: influence score -/

theorem out_weight_mem {G : KnowledgeGraph} {e : String}
    {c : String × ℚ × String} (hc : c ∈ (getEntityRelationships G e).1) :
    ∃ ed ∈ G.edges, c.2.1 = ed.weight := by
  by_cases he : e ∈ G.nodes
  · have hc' : c ∈ G.edges.filterMap fun ed =>
        if ed.source = e then some (ed.target, ed.weight, ed.relationship_type)
        else none := by
      simpa [getEntityRelationships, he] using hc
    rw [List.mem_filterMap] at hc'
    obtain ⟨ed, hed, hif⟩ := hc'
    by_cases hs : ed.source = e
    · rw [if_pos hs] at hif
      injection hif with h
      refine ⟨ed, hed, ?_⟩
      rw [← h]
    · rw [if_neg hs] at hif
      cases hif
  · simp [getEntityRelationships, he] at hc

theorem in_weight_mem {G : KnowledgeGraph} {e : String}
    {c : String × ℚ × String} (hc : c ∈ (getEntityRelationships G e).2) :
    ∃ ed ∈ G.edges, c.2.1 = ed.weight := by
  by_cases he : e ∈ G.nodes
  · have hc' : c ∈ G.edges.filterMap fun ed =>
        if ed.target = e then some (ed.source, ed.weight, ed.relationship_type)
        else none := by
      simpa [getEntityRelationships, he] using hc
    rw [List.mem_filterMap] at hc'
    obtain ⟨ed, hed, hif⟩ := hc'
    by_cases hs : ed.target = e
    · rw [if_pos hs] at hif
      injection hif with h
      refine ⟨ed, hed, ?_⟩
      rw [← h]
    · rw [if_neg hs] at hif
      cases hif
  · simp [getEntityRelationships, he] at hc

/-- C5: the influence score is 0 for an absent or unconnected entity,
otherwise equals `min(1, avg_weight * (1 + ln(n + 1) / 10))`; the formula
is monotone non-decreasing in the average weight and (for non-negative
averages) in the connection count, and the score never exceeds 1. -/
theorem claim_C5_influence_score :
    (∀ (G : KnowledgeGraph) (e : String),
      (e ∉ G.nodes → getEntityInfluenceScore G e = 0) ∧
      ((getEntityRelationships G e).1.length +
          (getEntityRelationships G e).2.length = 0 →
        getEntityInfluenceScore G e = 0)) ∧
    (∀ (G : KnowledgeGraph) (e : String), e ∈ G.nodes →
      (getEntityRelationships G e).1.length +
          (getEntityRelationships G e).2.length ≠ 0 →
      getEntityInfluenceScore G e =
        influenceFormula
          (((((getEntityRelationships G e).1.map fun c => c.2.1).sum +
              ((getEntityRelationships G e).2.map fun c => c.2.1).sum : ℚ) :
              ℝ) /
            (((getEntityRelationships G e).1.length +
              (getEntityRelationships G e).2.length : ℕ) : ℝ))
          ((getEntityRelationships G e).1.length +
            (getEntityRelationships G e).2.length)) ∧
    (∀ (a1 a2 : ℝ) (n : ℕ), a1 ≤ a2 →
      influenceFormula a1 n ≤ influenceFormula a2 n) ∧
    (∀ (a : ℝ) (n1 n2 : ℕ), 0 ≤ a → n1 ≤ n2 →
      influenceFormula a n1 ≤ influenceFormula a n2) ∧
    (∀ (G : KnowledgeGraph) (e : String), getEntityInfluenceScore G e ≤ 1) ∧
    ∀ (ops : List Op) (e : String),
      0 ≤ ((((getEntityRelationships (runOps ops) e).1.map fun c =>
          c.2.1).sum +
        ((getEntityRelationships (runOps ops) e).2.map fun c =>
          c.2.1).sum) : ℚ) := by
  refine ⟨?_, ?_, ?_, ?_, ?_, ?_⟩
  · intro G e
    constructor
    · intro he
      simp only [getEntityInfluenceScore, if_neg he]
    · intro hn
      simp only [getEntityInfluenceScore]
      by_cases he : e ∈ G.nodes
      · rw [if_pos he, if_pos hn]
      · rw [if_neg he]
  · intro G e he hn
    simp only [getEntityInfluenceScore, influenceFormula, if_pos he,
      if_neg hn]
  · intro a1 a2 n h
    unfold influenceFormula
    have h0 : (0:ℝ) ≤ Real.log ((n : ℝ) + 1) :=
      Real.log_nonneg (by
        have := Nat.cast_nonneg (α := ℝ) n
        linarith)
    exact min_le_min (le_refl 1)
      (mul_le_mul_of_nonneg_right h (by linarith))
  · intro a n1 n2 ha h
    unfold influenceFormula
    have hc : ((n1 : ℝ) : ℝ) ≤ (n2 : ℝ) := by exact_mod_cast h
    have hlog : Real.log ((n1 : ℝ) + 1) ≤ Real.log ((n2 : ℝ) + 1) := by
      rw [Real.log_le_log_iff (by positivity) (by positivity)]
      linarith
    exact min_le_min (le_refl 1)
      (mul_le_mul_of_nonneg_left (by linarith) ha)
  · intro G e
    unfold getEntityInfluenceScore
    by_cases he : e ∈ G.nodes
    · rw [if_pos he]
      by_cases hn : (getEntityRelationships G e).1.length +
          (getEntityRelationships G e).2.length = 0
      · rw [if_pos hn]
        norm_num
      · rw [if_neg hn]
        exact min_le_left _ _
    · rw [if_neg he]
      norm_num
  · intro ops e
    have hb := (wf_runOps ops).2.2.1
    apply add_nonneg <;> apply List.sum_nonneg <;> intro x hx <;>
      rw [List.mem_map] at hx
    · obtain ⟨c, hc, rfl⟩ := hx
      obtain ⟨ed, hed, hw⟩ := out_weight_mem hc
      rw [hw]
      exact (hb ed hed).1
    · obtain ⟨c, hc, rfl⟩ := hx
      obtain ⟨ed, hed, hw⟩ := in_weight_mem hc
      rw [hw]
      exact (hb ed hed).1

/-- Witness for C5: a zero-connection entity scores 0; the formula is
monotone at concrete arguments; a concrete score is bounded by 1. -/
theorem claim_C5_influence_score_witness :
    getEntityInfluenceScore exMetaG "A" = 0 ∧
    influenceFormula 0 2 ≤ influenceFormula 1 2 ∧
    influenceFormula (1/2) 1 ≤ influenceFormula (1/2) 3 ∧
    getEntityInfluenceScore exPath "B" ≤ 1 :=
  ⟨(claim_C5_influence_score.1 exMetaG "A").2 (by decide),
    claim_C5_influence_score.2.2.1 0 1 2 (by norm_num),
    claim_C5_influence_score.2.2.2.1 (1/2) 1 3 (by norm_num) (by norm_num),
    claim_C5_influence_score.2.2.2.2.1 exPath "B"⟩
